/-
  Verification of the rebe-shell terminal gateway.

  Shallow embedding of the core subsystems:
  * the per-host circuit breaker (src-tauri/src/circuit_breaker/mod.rs),
  * the SSH connection pool (rebe-core/src/ssh/pool.rs),
  * the PTY session manager (backend/src/pty.rs),
  * the session gateway's writer-pump input routing (backend/src/main.rs).

  Time is modelled as natural-number instants; `Instant::elapsed` at instant
  `now` for a stamp `t` becomes `now - t` (truncated subtraction, matching the
  fact that elapsed time is never negative).  Fallible operations return
  `Except`; the results of external effects (the wrapped async operation, the
  TCP/SSH handshake, the raw device read) are passed in as explicit outcome
  parameters.
-/
import Mathlib

namespace RebeShell

/-! ## Circuit breaker (src-tauri/src/circuit_breaker/mod.rs) -/

/-- `CircuitBreakerConfig`: `failure_threshold`, `success_threshold`,
`timeout` (the `Duration` modelled as a natural number of time units). -/
structure CircuitBreakerConfig where
  failure_threshold : Nat
  success_threshold : Nat
  timeout : Nat
  deriving Repr, DecidableEq

/-- The `Default` impl: 5 failures, 2 successes, 60 s. -/
def CircuitBreakerConfig.default : CircuitBreakerConfig :=
  { failure_threshold := 5, success_threshold := 2, timeout := 60 }

/-- `BreakerState`: `Closed { failures }`, `Open { opened_at }`,
`HalfOpen { successes }`. -/
inductive BreakerState where
  | closed (failures : Nat)
  | opened (opened_at : Nat)
  | halfOpen (successes : Nat)
  deriving Repr, DecidableEq

/-- `CircuitBreakerError<E>`: `Open` (admission denied) or
`OperationFailed(e)`. -/
inductive CircuitBreakerError (E : Type) where
  | breakerOpen
  | operationFailed (e : E)
  deriving DecidableEq

/-- Result of one `CircuitBreaker::call`: the state after the call, whether
the wrapped operation was executed, and the value returned to the caller. -/
structure CallResult (E T : Type) where
  state : BreakerState
  ran : Bool
  result : Except (CircuitBreakerError E) T

/-- First critical section of `CircuitBreaker::call`: consult the state at
instant `now`.  `Open { opened_at }` transitions to `HalfOpen { successes: 0 }`
when `opened_at.elapsed() > timeout`, otherwise the call is rejected
(`none`); every other state admits the call unchanged. -/
def breakerAdmit (cfg : CircuitBreakerConfig) (st : BreakerState) (now : Nat) :
    Option BreakerState :=
  match st with
  | .opened t => if now - t > cfg.timeout then some (.halfOpen 0) else none
  | s => some s

/-- Second critical section of `CircuitBreaker::call`: record the operation's
outcome.  `success = true` follows the `Ok` arm (HalfOpen counts successes up
to `success_threshold`, every other state resets to `Closed { failures: 0 }`);
`success = false` follows the `Err` arm (Closed counts failures up to
`failure_threshold` and then opens at instant `now`, HalfOpen re-opens,
anything else is left unchanged). -/
def breakerRecord (cfg : CircuitBreakerConfig) (st : BreakerState)
    (success : Bool) (now : Nat) : BreakerState :=
  if success then
    match st with
    | .halfOpen s =>
        if s + 1 ≥ cfg.success_threshold then .closed 0 else .halfOpen (s + 1)
    | _ => .closed 0
  else
    match st with
    | .closed f =>
        if f + 1 ≥ cfg.failure_threshold then .opened now else .closed (f + 1)
    | .halfOpen _ => .opened now
    | s => s

/-- `CircuitBreaker::call`: admission at instant `now₀`, the wrapped
operation's outcome `op`, outcome recorded at instant `now₁` (the code reads
`Instant::now()` again after the operation completes).  When admission is
denied the operation is not run and the caller gets
`CircuitBreakerError::Open`. -/
def breakerCall {E T : Type} (cfg : CircuitBreakerConfig) (st : BreakerState)
    (now₀ now₁ : Nat) (op : Except E T) : CallResult E T :=
  match breakerAdmit cfg st now₀ with
  | none => { state := st, ran := false, result := .error .breakerOpen }
  | some st₁ =>
      match op with
      | .ok v =>
          { state := breakerRecord cfg st₁ true now₁, ran := true,
            result := .ok v }
      | .error e =>
          { state := breakerRecord cfg st₁ false now₁, ran := true,
            result := .error (.operationFailed e) }

/-- `CircuitBreaker::is_open`: true exactly when the state is `Open { .. }`,
with no look at the elapsed time. -/
def is_open (st : BreakerState) : Bool :=
  match st with
  | .opened _ => true
  | _ => false

/-! ## SSH connection pool (rebe-core/src/ssh/pool.rs)

The pool map is keyed by `HostKey`; `acquire`, `release` and `exec` each act
only on the entry list of one key, so the embedding works on that per-key
`Vec<SSHConnection>` directly (an absent key behaves as the empty list, which
is what `entry(key).or_insert_with(Vec::new)` produces).  The authenticated
`ssh2::Session` is an opaque handle, modelled as a `Nat`. -/

/-- `PoolConfig`. -/
structure PoolConfig where
  max_connections_per_host : Nat
  idle_timeout : Nat
  connection_timeout : Nat
  deriving Repr, DecidableEq

/-- The `Default` impl: 10 connections per host, 300 s idle, 10 s connect. -/
def PoolConfig.default : PoolConfig :=
  { max_connections_per_host := 10, idle_timeout := 300,
    connection_timeout := 10 }

/-- `SSHConnection`: session handle, `last_used` stamp, `in_use` flag. -/
structure SSHConnection where
  session : Nat
  last_used : Nat
  in_use : Bool
  deriving Repr, DecidableEq

/-- `SSHConnection::is_expired`: `self.last_used.elapsed() > timeout`,
evaluated at instant `now`. -/
def SSHConnection.is_expired (c : SSHConnection) (now : Nat)
    (timeout : Nat) : Bool :=
  now - c.last_used > timeout

/-- Errors surfaced by `SSHPool::acquire` (the code uses `anyhow`; the typed
shape distinguishes the handshake/auth failure from pool exhaustion). -/
inductive AcquireError where
  | connectError (msg : String)
  | poolFull
  deriving Repr, DecidableEq

/-- `conns.retain(|c| !c.is_expired(idle_timeout))` — the pruning step at the
top of `acquire`. -/
def pruneExpired (cfg : PoolConfig) (conns : List SSHConnection)
    (now : Nat) : List SSHConnection :=
  conns.filter (fun c => ¬ c.is_expired now cfg.idle_timeout)

/-- The reuse scan of `acquire`: walk the list and mark the first entry with
`in_use = false` as `in_use = true`, `last_used = now`; `none` when every
entry is busy. -/
def markFirstFree : List SSHConnection → Nat → Option (List SSHConnection)
  | [], _ => none
  | c :: rest, now =>
      if c.in_use then (markFirstFree rest now).map (c :: ·)
      else some ({ c with in_use := true, last_used := now } :: rest)

/-- `SSHPool::acquire` on the entry list of one host key at instant `now`.
`connect` is the outcome of `create_connection` (TCP dial within
`connection_timeout`, handshake, public-key auth), producing a session handle
on success.  Returns the key's entry list after the call and either a lease
(`ok`) or the surfaced error.  Order of operations, as in the source: prune,
then reuse scan, then mint under the limit, else `PoolFull`. -/
def acquire (cfg : PoolConfig) (conns : List SSHConnection) (now : Nat)
    (connect : Except String Nat) :
    List SSHConnection × Except AcquireError Unit :=
  let pruned := pruneExpired cfg conns now
  match markFirstFree pruned now with
  | some marked => (marked, .ok ())
  | none =>
      if pruned.length < cfg.max_connections_per_host then
        match connect with
        | .ok session =>
            (pruned ++ [{ session := session, last_used := now,
                          in_use := true }], .ok ())
        | .error e => (pruned, .error (.connectError e))
      else
        (pruned, .error .poolFull)

/-- `SSHPool::release` on the entry list of one host key: clear the `in_use`
flag of the first in-use entry (the lease holds only the key, not a slot) and
stop.  Nothing else about the entry is touched. -/
def release : List SSHConnection → List SSHConnection
  | [] => []
  | c :: rest =>
      if c.in_use then { c with in_use := false } :: rest else c :: release rest

/-- The `in_use` count of an entry list, as computed per key by
`SSHPool::stats`. -/
def inUseCount (conns : List SSHConnection) : Nat :=
  (conns.filter (·.in_use)).length

/-- Outcome of the remote channel interaction inside `PooledConnection::exec`
(channel open, `exec`, stdout read, `wait_close`, `exit_status`): either a
transport-level failure at one of those steps, or completion with the stdout
text and the exit status. -/
inductive ExecOutcome where
  | transportError (msg : String)
  | completed (stdout : String) (exit_status : Int)
  deriving Repr, DecidableEq

/-- Errors surfaced by `PooledConnection::exec_with_timeout`. -/
inductive ExecError where
  | connectionNotFound
  | noInUseConnection
  | remote (msg : String)
  | nonZeroExit (code : Int)
  | commandTimeout
  deriving Repr, DecidableEq

/-- `PooledConnection::exec`: look the key up in the pool map (`none` models
an absent key → "Connection not found"), find the first in-use entry ("No
in-use connection"), then run the channel interaction; a non-zero exit status
is reported as its own error, zero exit yields the stdout text. -/
def exec (conns? : Option (List SSHConnection)) (outcome : ExecOutcome) :
    Except ExecError String :=
  match conns? with
  | none => .error .connectionNotFound
  | some conns =>
      match conns.find? (·.in_use) with
      | none => .error .noInUseConnection
      | some _ =>
          match outcome with
          | .transportError m => .error (.remote m)
          | .completed stdout code =>
              if code ≠ 0 then .error (.nonZeroExit code) else .ok stdout

/-- `PooledConnection::exec_with_timeout`: `tokio::time::timeout(timeout,
self.exec(cmd))`.  `elapsed` is the wall time the whole `exec` future takes
(channel open, execution, stdout read, close, exit-status read); when it
exceeds `timeout` the caller gets the "Command timeout" error instead of the
inner result. -/
def exec_with_timeout (conns? : Option (List SSHConnection))
    (outcome : ExecOutcome) (elapsed timeout : Nat) : Except ExecError String :=
  if elapsed > timeout then .error .commandTimeout else exec conns? outcome

/-! ## PTY session manager (backend/src/pty.rs)

The `Uuid` session id is modelled as a `Nat`; the `HashMap<SessionId,
PtySession>` registry as an association list (ids are unique in the map, and
removal removes every binding of the id, so the embedding's `List.filter`
removal agrees with `HashMap::remove`).  The child, master, writer and reader
handles are opaque `Nat`s; the outcomes of the blocking I/O they perform are
passed in as parameters. -/

/-- Session ids (`Uuid`). -/
abbrev SessionId := Nat

/-- `PtySession`: child process handle, master PTY, writer and reader
handles. -/
structure PtySession where
  child : Nat
  master : Nat
  writer : Nat
  reader : Nat
  deriving Repr, DecidableEq

/-- The session registry `HashMap<SessionId, PtySession>`. -/
abbrev Registry := List (SessionId × PtySession)

/-- `self.sessions.get(&id)`. -/
def lookupSession (reg : Registry) (id : SessionId) : Option PtySession :=
  (reg.find? (fun e => e.1 = id)).map (·.2)

/-- `self.sessions.remove(&id)`, keeping the rest of the registry. -/
def removeSession (reg : Registry) (id : SessionId) : Registry :=
  reg.filter (fun e => ¬ e.1 = id)

/-- `PtyManager::list_sessions`: the registry's key snapshot. -/
def list_sessions (reg : Registry) : List SessionId :=
  reg.map (·.1)

/-- Errors surfaced by the PTY manager ("Session not found" from the registry
lookup, every other failure an I/O error from the handle). -/
inductive PtyError where
  | sessionNotFound
  | ioError (msg : String)
  deriving Repr, DecidableEq

/-- `PtyManager::write`: registry lookup, then the blocking
`write_all + flush` on the writer handle, whose outcome is `ioResult`.  The
registry itself is not modified. -/
def ptyWrite (reg : Registry) (id : SessionId) (data : List Nat)
    (ioResult : Except String Unit) : Except PtyError Unit :=
  match lookupSession reg id with
  | none => .error .sessionNotFound
  | some _ =>
      match ioResult with
      | .ok _ => .ok ()
      | .error m => .error (.ioError m)

/-- Outcome of the raw non-blocking `reader.read(&mut buffer)` with a 4096
byte buffer: `avail bytes` models a device holding `bytes` (the read returns
`bytes.take 4096`, and `Ok(0)` is the case `bytes = []`), `wouldBlock` the
`ErrorKind::WouldBlock` failure, `ioError` any other failure. -/
inductive RawReadOutcome where
  | avail (bytes : List Nat)
  | wouldBlock
  | ioError (msg : String)
  deriving Repr, DecidableEq

/-- `PtyManager::read`: registry lookup, then the non-blocking read; `Ok(0)`
and `WouldBlock` both yield the empty sequence, `Ok(n)` the buffer truncated
to the `n ≤ 4096` bytes read, and any other error is surfaced.  The function
returns the registry it leaves behind: the session is never removed, whatever
the outcome. -/
def ptyRead (reg : Registry) (id : SessionId) (dev : RawReadOutcome) :
    Except PtyError (List Nat) × Registry :=
  match lookupSession reg id with
  | none => (.error .sessionNotFound, reg)
  | some _ =>
      match dev with
      | .avail bytes =>
          let buf := bytes.take 4096
          if buf.length = 0 then (.ok [], reg) else (.ok buf, reg)
      | .wouldBlock => (.ok [], reg)
      | .ioError m => (.error (.ioError m), reg)

/-- `PtyManager::resize`: registry lookup, then `master.resize` with the new
size, whose outcome is `ioResult`. -/
def ptyResize (reg : Registry) (id : SessionId) (rows cols : Nat)
    (ioResult : Except String Unit) : Except PtyError Unit :=
  match lookupSession reg id with
  | none => .error .sessionNotFound
  | some _ =>
      match ioResult with
      | .ok _ => .ok ()
      | .error m => .error (.ioError m)

/-- `PtyManager::close`: remove the entry if present and attempt to kill the
child (`let _ = session.child.kill()` — `killResult` is discarded, success or
failure), then return `Ok(())` unconditionally.  The middle component records
whether a kill was attempted, i.e. whether the id was present. -/
def ptyClose (reg : Registry) (id : SessionId)
    (killResult : Except String Unit) :
    Registry × Bool × Except PtyError Unit :=
  match lookupSession reg id with
  | some _ => (removeSession reg id, true, .ok ())
  | none => (reg, false, .ok ())

/-! ## Session gateway: writer-pump input routing (backend/src/main.rs)

The decoded text of an input frame is modelled as a `List Char` (the code
decodes the base64 payload and runs it through `String::from_utf8_lossy`
before buffering; the embedding takes the decoded text, so it covers every
frame whose bytes are valid UTF-8, which the claims' inputs are).  The
effects of one frame are a list of `GatewayWrite` actions: bytes written to
the PTY, or a dispatch of a remote directive to `handle_ssh_command`. -/

/-- Rust's `char::is_whitespace` — the Unicode White_Space property, which
is what `str::trim` strips: the six ASCII whitespace characters plus NEL
(U+0085), NO-BREAK SPACE (U+00A0), OGHAM SPACE MARK (U+1680), the U+2000 –
U+200A spaces, LINE SEPARATOR (U+2028), PARAGRAPH SEPARATOR (U+2029),
NARROW NO-BREAK SPACE (U+202F), MEDIUM MATHEMATICAL SPACE (U+205F) and
IDEOGRAPHIC SPACE (U+3000). -/
def isWspace (c : Char) : Bool :=
  c = ' ' ∨ c = '\t' ∨ c = '\n' ∨ c = '\x0b' ∨ c = '\x0c' ∨ c = '\r' ∨
  c.toNat = 0x85 ∨ c.toNat = 0xA0 ∨ c.toNat = 0x1680 ∨
  (0x2000 ≤ c.toNat ∧ c.toNat ≤ 0x200A) ∨ c.toNat = 0x2028 ∨
  c.toNat = 0x2029 ∨ c.toNat = 0x202F ∨ c.toNat = 0x205F ∨
  c.toNat = 0x3000

/-- `str::trim`: strip leading and trailing whitespace. -/
def trimChars (l : List Char) : List Char :=
  ((l.dropWhile isWspace).reverse.dropWhile isWspace).reverse

/-- `str::split(sep)`: the pieces between separators — one more piece than
there are separators, so the result is never empty. -/
def splitChar (sep : Char) : List Char → List (List Char)
  | [] => [[]]
  | c :: rest =>
      if c = sep then [] :: splitChar sep rest
      else
        match splitChar sep rest with
        | [] => [[c]]
        | p :: ps => (c :: p) :: ps

/-- `str::splitn(2, sep)`: split at the first separator only. -/
def splitn2 (sep : Char) (l : List Char) : List (List Char) :=
  match l.findIdx? (· = sep) with
  | none => [l]
  | some i => [l.take i, l.drop (i + 1)]

/-- `str::trim_matches('"')`: strip every leading and trailing double
quote. -/
def trimMatchesQuote (l : List Char) : List Char :=
  ((l.dropWhile (· = '"')).reverse.dropWhile (· = '"')).reverse

/-- `str::parse::<u16>()`: an optional `+` sign, then at least one ASCII
digit, value below 2^16; anything else fails. -/
def parseU16 (l : List Char) : Option Nat :=
  let body := match l with
    | '+' :: rest => rest
    | _ => l
  if body ≠ [] ∧ body.all Char.isDigit then
    let n := body.foldl (fun acc c => acc * 10 + (c.toNat - 48)) 0
    if n < 65536 then some n else none
  else none

/-- `Command`: `Local { input }` or `SSH { host, port, user, command }`. -/
inductive Command where
  | localCmd (input : List Char)
  | sshCmd (host : List Char) (port : Nat) (user : List Char)
      (command : List Char)
  deriving Repr, DecidableEq

/-- `parse_ssh_command`: `user@host "command"` or `user@host:port "command"`,
fed the text after the `ssh ` prefix.  `splitn(2, ' ')` isolates the
user/host token, the rest (quotes stripped) is the command; the token must
split at `@` into exactly two parts; a `:` introduces the port, parsed with
`unwrap_or(22)`. -/
def parse_ssh_command (input : List Char) : Option Command :=
  let parts := splitn2 ' ' input
  if parts.length < 2 then none
  else
    let user_host_port := parts.headD []
    let command := trimMatchesQuote (parts.getD 1 [])
    let at_parts := splitChar '@' user_host_port
    if at_parts.length ≠ 2 then none
    else
      let user := at_parts.headD []
      let host_port := at_parts.getD 1 []
      match host_port.findIdx? (· = ':') with
      | some i =>
          some (.sshCmd (host_port.take i)
            ((parseU16 (host_port.drop (i + 1))).getD 22) user command)
      | none => some (.sshCmd host_port 22 user command)

/-- `parse_command`: an input whose trimmed form starts with `ssh ` and whose
remainder parses is an SSH command; everything else is
`Command::Local { input }` (carrying the input as passed in). -/
def parse_command (input : List Char) : Command :=
  let trimmed := trimChars input
  if ("ssh ".data).isPrefixOf trimmed then
    match parse_ssh_command (trimmed.drop 4) with
    | some parsed => parsed
    | none => .localCmd input
  else .localCmd input

/-- One effect of the writer-pump on the rest of the system: a PTY write, or
the dispatch of a remote directive (`handle_ssh_command`, whose own writes
depend on breaker and pool state and are modelled separately). -/
inductive GatewayWrite where
  | pty (data : List Char)
  | sshDispatch (host : List Char) (port : Nat) (user : List Char)
      (command : List Char)
  deriving Repr, DecidableEq

/-- The echo line `process_command` writes before dispatching an SSH command:
`ssh user@host:port "command"` plus CRLF. -/
def sshEcho (host : List Char) (port : Nat) (user : List Char)
    (command : List Char) : List Char :=
  ("ssh ".data) ++ user ++ ['@'] ++ host ++ [':'] ++ (Nat.repr port).data ++
    (" \"".data) ++ command ++ ("\"\r\n".data)

/-- `process_command`: a `Local` command is written to the PTY as its bytes
with a newline appended when not already present; an `SSH` command is echoed
into the PTY and then dispatched to `handle_ssh_command`. -/
def process_command (input : List Char) : List GatewayWrite :=
  match parse_command input with
  | .localCmd l =>
      [.pty (if l.getLast? = some '\n' then l else l ++ ['\n'])]
  | .sshCmd host port user command =>
      [.pty (sshEcho host port user command),
       .sshDispatch host port user command]

/-- The per-line step of the frame loop: a line whose trimmed form is empty
is skipped, otherwise `process_command(line.trim())` runs. -/
def lineActions (line : List Char) : List GatewayWrite :=
  if trimChars line = [] then [] else process_command (trimChars line)

/-- One `Input` frame through the writer-pump (`recv_task`): append the
decoded chunk to the line buffer; if the buffer now contains a newline, split
it, run every complete line through `lineActions` in order and keep the
trailing fragment as the new buffer; otherwise write the chunk to the PTY
immediately for interactive echo.  Returns the new buffer and the emitted
actions. -/
def processFrame (buffer chunk : List Char) :
    List Char × List GatewayWrite :=
  let buf := buffer ++ chunk
  if '\n' ∈ buf then
    let lines := splitChar '\n' buf
    (lines.getLastD [],
     lines.dropLast.foldl (fun acc l => acc ++ lineActions l) [])
  else
    (buf, [.pty chunk])

/-- What one dispatched remote directive produces in the transcript: the
fail-fast diagnostic from the `is_open` pre-check, the breaker-open
diagnostic from `CircuitBreakerError::Open`, the formatted stdout, or the
operation-failure diagnostic. -/
inductive SshDispatchOutcome where
  | rejectedByPrecheck
  | openDiagnostic
  | produced (stdout : String)
  | failureDiagnostic (msg : String)
  deriving Repr, DecidableEq

/-- `handle_ssh_command`: write the connecting status, then — before calling
the breaker — bail out with the "circuit OPEN - failing fast" diagnostic
whenever `breaker.is_open()` holds; only otherwise run `breaker.call` around
the pool acquire + `exec_with_timeout` (its outcome abstracted as `op`).
Returns the breaker state after the dispatch and the transcript outcome. -/
def handle_ssh_command (cfg : CircuitBreakerConfig) (st : BreakerState)
    (now₀ now₁ : Nat) (op : Except String String) :
    BreakerState × SshDispatchOutcome :=
  if is_open st then (st, .rejectedByPrecheck)
  else
    let r := breakerCall cfg st now₀ now₁ op
    match r.result with
    | .ok out => (r.state, .produced out)
    | .error .breakerOpen => (r.state, .openDiagnostic)
    | .error (.operationFailed e) => (r.state, .failureDiagnostic e)

/-! ## Shared lemmas -/

/-- A successful reuse scan does not change the number of entries. -/
lemma markFirstFree_length (l : List SSHConnection) (now : Nat)
    (l' : List SSHConnection) (h : markFirstFree l now = some l') :
    l'.length = l.length := by
  induction l generalizing l' with
  | nil => simp [markFirstFree] at h
  | cons c rest ih =>
      by_cases hc : c.in_use
      · simp only [markFirstFree, if_pos hc, Option.map_eq_some'] at h
        obtain ⟨r, hr, rfl⟩ := h
        simp [ih r hr]
      · simp only [markFirstFree, if_neg hc, Option.some.injEq] at h
        subst h
        simp

/-- A successful reuse scan marks exactly one additional entry in-use. -/
lemma markFirstFree_inUseCount (l : List SSHConnection) (now : Nat)
    (l' : List SSHConnection) (h : markFirstFree l now = some l') :
    inUseCount l' = inUseCount l + 1 := by
  induction l generalizing l' with
  | nil => simp [markFirstFree] at h
  | cons c rest ih =>
      by_cases hc : c.in_use
      · simp only [markFirstFree, if_pos hc, Option.map_eq_some'] at h
        obtain ⟨r, hr, rfl⟩ := h
        have h2 := ih r hr
        simp [inUseCount, List.filter, hc] at h2 ⊢
        omega
      · simp only [markFirstFree, if_neg hc, Option.some.injEq] at h
        subst h
        simp [inUseCount, List.filter, hc]

/-- Every entry of a successfully marked list either was in the scanned list
or carries `last_used = now`. -/
lemma markFirstFree_mem (l : List SSHConnection) (now : Nat)
    (l' : List SSHConnection) (h : markFirstFree l now = some l') :
    ∀ e ∈ l', e ∈ l ∨ e.last_used = now := by
  induction l generalizing l' with
  | nil => simp [markFirstFree] at h
  | cons c rest ih =>
      by_cases hc : c.in_use
      · simp only [markFirstFree, if_pos hc, Option.map_eq_some'] at h
        obtain ⟨r, hr, rfl⟩ := h
        intro e he
        rcases List.mem_cons.mp he with rfl | he'
        · exact Or.inl (List.mem_cons_self _ _)
        · rcases ih r hr e he' with h' | h'
          · exact Or.inl (List.mem_cons_of_mem _ h')
          · exact Or.inr h'
      · simp only [markFirstFree, if_neg hc, Option.some.injEq] at h
        subst h
        intro e he
        rcases List.mem_cons.mp he with rfl | he'
        · exact Or.inr rfl
        · exact Or.inl (List.mem_cons_of_mem _ he')

/-- `release` on a list with at least one in-use entry clears exactly one. -/
lemma release_inUseCount_pos (l : List SSHConnection)
    (h : 0 < inUseCount l) : inUseCount (release l) = inUseCount l - 1 := by
  induction l with
  | nil => simp [inUseCount] at h
  | cons c rest ih =>
      by_cases hc : c.in_use
      · simp [release, hc, inUseCount, List.filter]
      · simp only [release, if_neg hc]
        have h' : 0 < inUseCount rest := by
          simpa [inUseCount, List.filter, hc] using h
        simp [inUseCount, List.filter, hc] at *
        exact ih h'

/-- `release` on a list with no in-use entry is the identity. -/
lemma release_of_no_in_use (l : List SSHConnection)
    (h : inUseCount l = 0) : release l = l := by
  induction l with
  | nil => rfl
  | cons c rest ih =>
      by_cases hc : c.in_use
      · simp [inUseCount, List.filter, hc] at h
      · simp only [release, if_neg hc]
        have : inUseCount rest = 0 := by
          simpa [inUseCount, List.filter, hc] using h
        rw [ih this]

/-- `release` never touches a session handle or a `last_used` stamp. -/
lemma release_preserves_stamps (l : List SSHConnection) :
    (release l).map (fun c => (c.session, c.last_used)) =
      l.map (fun c => (c.session, c.last_used)) := by
  induction l with
  | nil => rfl
  | cons c rest ih =>
      by_cases hc : c.in_use
      · simp [release, hc]
      · simp [release, hc, ih]

/-- The head surviving `dropWhile p` does not satisfy `p`. -/
lemma head_dropWhile_not {α : Type} (p : α → Bool) (l : List α) (x : α)
    (h : (l.dropWhile p).head? = some x) : p x = false := by
  induction l with
  | nil => simp [List.dropWhile] at h
  | cons c rest ih =>
      by_cases hc : p c
      · rw [List.dropWhile_cons_of_pos hc] at h
        exact ih h
      · rw [List.dropWhile_cons_of_neg hc] at h
        simp at h
        subst h
        simpa using hc

/-- The last character of a trimmed nonempty string is not whitespace. -/
lemma trimChars_getLast_not_wspace (l : List Char) (x : Char)
    (h : (trimChars l).getLast? = some x) : isWspace x = false := by
  unfold trimChars at h
  rw [List.getLast?_reverse] at h
  exact head_dropWhile_not _ _ _ h

/-- Splitting a separator-free line plus its terminator yields the line and
one empty trailing fragment. -/
lemma splitChar_append_sep (sep : Char) (l : List Char) (h : sep ∉ l) :
    splitChar sep (l ++ [sep]) = [l, []] := by
  induction l with
  | nil => simp [splitChar]
  | cons c rest ih =>
      have hc : ¬ c = sep := fun hcs => h (hcs ▸ List.mem_cons_self _ _)
      have hrest : sep ∉ rest := fun hm => h (List.mem_cons_of_mem _ hm)
      simp [splitChar, hc, ih hrest]

/-- A frame whose chunk brings no newline into the buffer is appended to the
buffer and written to the PTY as-is. -/
lemma processFrame_no_newline (b c : List Char) (hb : '\n' ∉ b)
    (hc : '\n' ∉ c) : processFrame b c = (b ++ c, [.pty c]) := by
  have hbc : '\n' ∉ b ++ c := by simp [List.mem_append, hb, hc]
  simp [processFrame, hbc]

/-- A frame that completes exactly one line leaves an empty buffer and emits
that line's actions. -/
lemma processFrame_complete_line (d c : List Char) (hd : '\n' ∉ d)
    (hc : '\n' ∉ c) :
    processFrame d (c ++ ['\n']) = ([], lineActions (d ++ c)) := by
  have hdc : '\n' ∉ d ++ c := by simp [List.mem_append, hd, hc]
  have h1 : d ++ (c ++ ['\n']) = (d ++ c) ++ ['\n'] :=
    (List.append_assoc d c ['\n']).symm
  have key := splitChar_append_sep '\n' (d ++ c) hdc
  simp only [processFrame, h1, key]
  simp

/-- A completed line that is whitespace-only is skipped by the frame loop. -/
lemma lineActions_skip (l : List Char) (h : trimChars l = []) :
    lineActions l = [] := by
  simp [lineActions, h]

/-- A completed line classified Local is written as its trimmed bytes with a
newline appended. -/
lemma lineActions_local (l : List Char)
    (hl : parse_command (trimChars l) = .localCmd (trimChars l))
    (hne : trimChars l ≠ []) :
    lineActions l = [.pty (trimChars l ++ ['\n'])] := by
  have hlast : ¬ (trimChars l).getLast? = some '\n' := by
    intro hEq
    have h1 := trimChars_getLast_not_wspace l '\n' hEq
    have h2 : isWspace '\n' = true := by decide
    simp [h2] at h1
  simp [lineActions, hne, process_command, hl, hlast]

/-- After removal, the registry lookup of the removed id fails. -/
lemma lookupSession_removeSession (reg : Registry) (id : SessionId) :
    lookupSession (removeSession reg id) id = none := by
  unfold lookupSession removeSession
  rw [Option.map_eq_none']
  rw [List.find?_eq_none]
  intro x hx
  have hx2 := (List.mem_filter.mp hx).2
  simp at hx2 ⊢
  exact hx2

/-- An id whose lookup fails is absent from the session list. -/
lemma not_mem_list_sessions_of_lookup_none (reg : Registry) (id : SessionId)
    (h : lookupSession reg id = none) : id ∉ list_sessions reg := by
  unfold lookupSession at h
  rw [Option.map_eq_none', List.find?_eq_none] at h
  intro hmem
  obtain ⟨x, hx, hx1⟩ := List.mem_map.mp hmem
  have := h x hx
  simp [hx1] at this

/-! ## Claims -/

/-- C1: `CircuitBreaker::call` performs exactly the spec's transitions: a
success in Closed(f) yields Closed(0); a failure in Closed(f) yields
Closed(f+1) when f+1 < failure_threshold and Open(now) when
f+1 ≥ failure_threshold; a success in HalfOpen(s) yields HalfOpen(s+1) when
s+1 < success_threshold and Closed(0) when s+1 ≥ success_threshold; a failure
in HalfOpen yields Open(now); and a call arriving in Open(t) with
now − t ≤ timeout is rejected with the Open error without running the
operation. -/
theorem breaker_call_transitions {E T : Type} (cfg : CircuitBreakerConfig)
    (f s t now₀ now₁ : Nat) (v : T) (e : E) (op : Except E T) :
    (breakerCall (E := E) (T := T) cfg (.closed f) now₀ now₁ (.ok v) =
      { state := .closed 0, ran := true, result := .ok v }) ∧
    (f + 1 < cfg.failure_threshold →
      breakerCall (E := E) (T := T) cfg (.closed f) now₀ now₁ (.error e) =
        { state := .closed (f + 1), ran := true,
          result := .error (.operationFailed e) }) ∧
    (f + 1 ≥ cfg.failure_threshold →
      breakerCall (E := E) (T := T) cfg (.closed f) now₀ now₁ (.error e) =
        { state := .opened now₁, ran := true,
          result := .error (.operationFailed e) }) ∧
    (s + 1 < cfg.success_threshold →
      breakerCall (E := E) (T := T) cfg (.halfOpen s) now₀ now₁ (.ok v) =
        { state := .halfOpen (s + 1), ran := true, result := .ok v }) ∧
    (s + 1 ≥ cfg.success_threshold →
      breakerCall (E := E) (T := T) cfg (.halfOpen s) now₀ now₁ (.ok v) =
        { state := .closed 0, ran := true, result := .ok v }) ∧
    (breakerCall (E := E) (T := T) cfg (.halfOpen s) now₀ now₁ (.error e) =
      { state := .opened now₁, ran := true,
        result := .error (.operationFailed e) }) ∧
    (now₀ - t ≤ cfg.timeout →
      breakerCall (E := E) (T := T) cfg (.opened t) now₀ now₁ op =
        { state := .opened t, ran := false,
          result := .error .breakerOpen }) := by
  refine ⟨rfl, fun h => ?_, fun h => ?_, fun h => ?_, fun h => ?_, rfl,
    fun h => ?_⟩
  · simp [breakerCall, breakerAdmit, breakerRecord, Nat.not_le.mpr h]
  · simp [breakerCall, breakerAdmit, breakerRecord, h]
  · simp [breakerCall, breakerAdmit, breakerRecord, Nat.not_le.mpr h]
  · simp [breakerCall, breakerAdmit, breakerRecord, h]
  · simp [breakerCall, breakerAdmit, Nat.not_lt.mpr h]

/-- Witness for `breaker_call_transitions` at the default configuration
(failure_threshold 5, success_threshold 2, timeout 60), discharging each
hypothesis at a concrete instant and counter value. -/
theorem breaker_call_transitions_witness :
    (breakerCall (E := String) (T := String) CircuitBreakerConfig.default
      (.closed 3) 10 11 (.error "boom") =
      { state := .closed 4, ran := true,
        result := .error (.operationFailed "boom") }) ∧
    (breakerCall (E := String) (T := String) CircuitBreakerConfig.default
      (.closed 4) 10 11 (.error "boom") =
      { state := .opened 11, ran := true,
        result := .error (.operationFailed "boom") }) ∧
    (breakerCall (E := String) (T := String) CircuitBreakerConfig.default
      (.halfOpen 0) 10 11 (.ok "fine") =
      { state := .halfOpen 1, ran := true, result := .ok "fine" }) ∧
    (breakerCall (E := String) (T := String) CircuitBreakerConfig.default
      (.halfOpen 1) 10 11 (.ok "fine") =
      { state := .closed 0, ran := true, result := .ok "fine" }) ∧
    (breakerCall (E := String) (T := String) CircuitBreakerConfig.default
      (.opened 100) 160 160 (.ok "fine") =
      { state := .opened 100, ran := false,
        result := .error .breakerOpen }) :=
  ⟨(breaker_call_transitions CircuitBreakerConfig.default 3 0 0 10 11 "fine"
      "boom" (.ok "fine")).2.1 (by decide),
   (breaker_call_transitions CircuitBreakerConfig.default 4 0 0 10 11 "fine"
      "boom" (.ok "fine")).2.2.1 (by decide),
   (breaker_call_transitions CircuitBreakerConfig.default 0 0 0 10 11 "fine"
      "boom" (.ok "fine")).2.2.2.1 (by decide),
   (breaker_call_transitions CircuitBreakerConfig.default 0 1 0 10 11 "fine"
      "boom" (.ok "fine")).2.2.2.2.1 (by decide),
   (breaker_call_transitions CircuitBreakerConfig.default 0 0 100 160 160
      "fine" "boom" (.ok "fine")).2.2.2.2.2.2 (by decide)⟩

/-- C2 (code bug): the session gateway's `handle_ssh_command` pre-checks
`breaker.is_open()`, which is true for any `Open { .. }` state regardless of
elapsed time, and returns the fail-fast diagnostic before ever calling
`breaker.call` — so a directive arriving in Open(t) with now − t > timeout is
rejected and no half-open probe is admitted, even though `breaker.call`
itself (second conjunct) would have admitted exactly such a probe and moved
to HalfOpen.  Concrete failing input: breaker opened at instant 0, default
timeout 60, directive dispatched at instant 61. -/
theorem gateway_open_breaker_never_probes :
    (handle_ssh_command CircuitBreakerConfig.default (.opened 0) 61 61
      (.ok "probe-ok") = (.opened 0, .rejectedByPrecheck)) ∧
    ((breakerCall (E := String) (T := String) CircuitBreakerConfig.default
      (.opened 0) 61 61 (.ok "probe-ok")).ran = true) ∧
    ((breakerCall (E := String) (T := String) CircuitBreakerConfig.default
      (.opened 0) 61 61 (.ok "probe-ok")).state = .halfOpen 1) := by
  refine ⟨rfl, rfl, rfl⟩

/-- C3 (counterexample): the complete line `"  ls  "` is classified Local but
is NOT written to the PTY verbatim — the writer-pump trims it to `"ls"` before
routing, so the PTY receives `"ls\n"` and not the original line bytes with a
newline reappended. -/
theorem local_line_not_verbatim :
    processFrame [] ("  ls  \n".data) = ([], [.pty ("ls\n".data)]) ∧
    "ls\n".data ≠ "  ls  \n".data := by
  decide

/-- C3 (amended): in the writer-pump, every decoded input chunk containing no
line terminator is written to the PTY immediately and verbatim (and appended
to the line buffer); a chunk completing a line leaves the empty buffer and
routes the completed line, which is first trimmed of leading and trailing
whitespace: a whitespace-only line is dropped, and a line classified Local is
written to the PTY as its trimmed bytes with a newline appended. -/
theorem writer_pump_routing_amended (b c l : List Char)
    (hb : '\n' ∉ b) (hc : '\n' ∉ c)
    (hl : parse_command (trimChars l) = .localCmd (trimChars l)) :
    processFrame b c = (b ++ c, [.pty c]) ∧
    processFrame b (c ++ ['\n']) = ([], lineActions (b ++ c)) ∧
    (trimChars l = [] → lineActions l = []) ∧
    (trimChars l ≠ [] → lineActions l = [.pty (trimChars l ++ ['\n'])]) := by
  exact ⟨processFrame_no_newline b c hb hc,
    processFrame_complete_line b c hb hc,
    fun h => lineActions_skip l h,
    fun hne => lineActions_local l hl hne⟩

/-- Witness for `writer_pump_routing_amended` at chunk `"s"` over buffer
`"l"` and at the Local line `"  ls  "`. -/
theorem writer_pump_routing_amended_witness :
    processFrame ['l'] ['s'] = (['l'] ++ ['s'], [.pty ['s']]) ∧
    processFrame ['l'] (['s'] ++ ['\n']) = ([], lineActions (['l'] ++ ['s'])) ∧
    lineActions ("  ls  ".data) =
      [.pty (trimChars ("  ls  ".data) ++ ['\n'])] := by
  have h := writer_pump_routing_amended ['l'] ['s'] ("  ls  ".data)
    (by decide) (by decide) (by decide)
  exact ⟨h.1, h.2.1, h.2.2.2 (by decide)⟩

/-- C10 (counterexample): a frame carrying the single space `" "` leaves the
buffer without a terminator and is written to the PTY immediately; but when
the next frame supplies the terminator, the completed line `" "` trims to
empty and is skipped, so nothing is written again — the byte reaches the PTY
once, not twice. -/
theorem whitespace_line_single_write :
    processFrame [] [' '] = ([' '], [.pty [' ']]) ∧
    processFrame [' '] ['\n'] = ([], []) := by
  decide

/-- C10 (amended): a frame whose decoded bytes leave the line buffer without
a terminator has those bytes written to the PTY immediately and retained in
the buffer; when a later frame supplies the terminator and the completed
line's trimmed form is nonempty and classifies Local, the trimmed line with a
newline appended is written to the PTY again — so those bytes reach the PTY
twice.  (Whitespace-only completed lines are dropped, and remote-classified
lines are dispatched instead; see the C10 counterexample.) -/
theorem retained_bytes_double_write (b c c₂ : List Char)
    (hb : '\n' ∉ b) (hc : '\n' ∉ c) (hc₂ : '\n' ∉ c₂)
    (hl : parse_command (trimChars (b ++ c ++ c₂)) =
      .localCmd (trimChars (b ++ c ++ c₂)))
    (hne : trimChars (b ++ c ++ c₂) ≠ []) :
    processFrame b c = (b ++ c, [.pty c]) ∧
    processFrame (b ++ c) (c₂ ++ ['\n']) =
      ([], [.pty (trimChars (b ++ c ++ c₂) ++ ['\n'])]) := by
  have hbc : '\n' ∉ b ++ c := by simp [List.mem_append, hb, hc]
  refine ⟨processFrame_no_newline b c hb hc, ?_⟩
  rw [processFrame_complete_line (b ++ c) c₂ hbc hc₂]
  rw [lineActions_local (b ++ c ++ c₂) hl hne]

/-- Witness for `retained_bytes_double_write`: buffer empty, partial chunk
`"ec"`, completing chunk `"ho\n"`; the bytes `"ec"` are written immediately
and again inside `"echo\n"`. -/
theorem retained_bytes_double_write_witness :
    processFrame [] ("ec".data) = ([] ++ "ec".data, [.pty ("ec".data)]) ∧
    processFrame ([] ++ "ec".data) ("ho".data ++ ['\n']) =
      ([], [.pty (trimChars ([] ++ "ec".data ++ "ho".data) ++ ['\n'])]) := by
  have h := retained_bytes_double_write [] ("ec".data) ("ho".data)
    (by decide) (by decide) (by decide) (by decide) (by decide)
  exact ⟨h.1, h.2⟩

/-- C4 (counterexample): `SSHPool::release` does NOT refresh the released
entry's last-used timestamp.  The single entry acquired at instant 5 and
released at instant 10 still carries `last_used = 5` after the release, not
the release time 10 — `release` only clears the `in_use` flag. -/
theorem release_does_not_refresh_last_used :
    release [{ session := 0, last_used := 5, in_use := true }] =
      [{ session := 0, last_used := 5, in_use := false }] ∧
    (5 : Nat) ≠ 10 := by
  decide

/-- C4 (amended): when a pooled-connection lease is dropped, `release` clears
the in-use flag of the first in-use entry for the host key — one entry per
release, so the in-use count drops by exactly one whenever a lease is
outstanding, and a release with no lease outstanding is a no-op; the entry's
session handle and last-used stamp are left untouched (last-used is refreshed
at acquire time, not at release).  Together with acquire raising the in-use
count by exactly one per granted lease, the count of in-use entries for a
key tracks the number of outstanding leases. -/
theorem release_clears_one_lease (cfg : PoolConfig)
    (conns : List SSHConnection) (now : Nat) (connect : Except String Nat) :
    (0 < inUseCount conns →
      inUseCount (release conns) = inUseCount conns - 1) ∧
    (inUseCount conns = 0 → release conns = conns) ∧
    ((release conns).map (fun c => (c.session, c.last_used)) =
      conns.map (fun c => (c.session, c.last_used))) ∧
    ((acquire cfg conns now connect).2 = .ok () →
      inUseCount (acquire cfg conns now connect).1 =
        inUseCount (pruneExpired cfg conns now) + 1) := by
  refine ⟨fun h => release_inUseCount_pos conns h,
    fun h => release_of_no_in_use conns h,
    release_preserves_stamps conns, fun hok => ?_⟩
  cases hm : markFirstFree (pruneExpired cfg conns now) now with
  | some marked =>
      simp only [acquire, hm]
      exact markFirstFree_inUseCount _ _ _ hm
  | none =>
      by_cases hlt :
        (pruneExpired cfg conns now).length < cfg.max_connections_per_host
      · cases connect with
        | ok s =>
            simp only [acquire, hm, if_pos hlt]
            simp [inUseCount, List.filter_append, List.filter]
        | error e => simp [acquire, hm, hlt] at hok
      · simp [acquire, hm, hlt] at hok

/-- Witness for `release_clears_one_lease`: one busy and one free entry; the
release clears the busy one, and a fresh acquire (reusing the free entry)
raises the in-use count of the pruned list by one. -/
theorem release_clears_one_lease_witness :
    inUseCount (release [{ session := 1, last_used := 5, in_use := true },
      { session := 2, last_used := 6, in_use := false }]) =
      inUseCount [{ session := 1, last_used := 5, in_use := true },
        { session := 2, last_used := 6, in_use := false }] - 1 ∧
    inUseCount (acquire PoolConfig.default
        [{ session := 1, last_used := 5, in_use := true },
         { session := 2, last_used := 6, in_use := false }] 7 (.ok 9)).1 =
      inUseCount (pruneExpired PoolConfig.default
        [{ session := 1, last_used := 5, in_use := true },
         { session := 2, last_used := 6, in_use := false }] 7) + 1 := by
  have h := release_clears_one_lease PoolConfig.default
    [{ session := 1, last_used := 5, in_use := true },
     { session := 2, last_used := 6, in_use := false }] 7 (.ok 9)
  exact ⟨h.1 (by decide), h.2.2.2 (by rfl)⟩

/-- C5: for every host key, the pool's entry list never grows beyond
`max_connections_per_host`: assuming the invariant on entry, acquire keeps
the list within the limit; a new entry is minted only when the (pruned) list
length is below the limit; and when no free entry exists and the list is at
the limit, acquire fails with PoolFull without inserting anything (it returns
exactly the pruned list). -/
theorem acquire_respects_capacity (cfg : PoolConfig)
    (conns : List SSHConnection) (now : Nat) (connect : Except String Nat)
    (hlen : conns.length ≤ cfg.max_connections_per_host) :
    ((acquire cfg conns now connect).1.length ≤
      cfg.max_connections_per_host) ∧
    ((pruneExpired cfg conns now).length <
        (acquire cfg conns now connect).1.length →
      (pruneExpired cfg conns now).length < cfg.max_connections_per_host) ∧
    (markFirstFree (pruneExpired cfg conns now) now = none →
      ¬ (pruneExpired cfg conns now).length < cfg.max_connections_per_host →
      acquire cfg conns now connect =
        (pruneExpired cfg conns now, .error .poolFull)) := by
  have hp : (pruneExpired cfg conns now).length ≤ conns.length :=
    List.length_filter_le _ _
  refine ⟨?_, ?_, fun hm hfull => by simp [acquire, hm, hfull]⟩
  · cases hm : markFirstFree (pruneExpired cfg conns now) now with
    | some marked =>
        simp only [acquire, hm]
        rw [markFirstFree_length _ _ _ hm]
        omega
    | none =>
        by_cases hlt :
          (pruneExpired cfg conns now).length < cfg.max_connections_per_host
        · cases connect with
          | ok s =>
              simp only [acquire, hm, if_pos hlt]
              simp only [List.length_append, List.length_cons,
                List.length_nil]
              omega
          | error e =>
              simp only [acquire, hm, if_pos hlt]
              omega
        · simp only [acquire, hm, if_neg hlt]
          omega
  · cases hm : markFirstFree (pruneExpired cfg conns now) now with
    | some marked =>
        simp only [acquire, hm]
        rw [markFirstFree_length _ _ _ hm]
        omega
    | none =>
        by_cases hlt :
          (pruneExpired cfg conns now).length < cfg.max_connections_per_host
        · intro _
          exact hlt
        · simp only [acquire, hm, if_neg hlt]
          omega

/-- Witness for `acquire_respects_capacity`: capacity 1, one busy fresh
entry — acquire stays within the limit and fails with PoolFull, returning
the pruned list unchanged; and a mint from the empty list shows growth only
happens under the limit. -/
theorem acquire_respects_capacity_witness :
    ((acquire (PoolConfig.mk 1 300 10)
      [{ session := 7, last_used := 0, in_use := true }] 0
      (.error "refused")).1.length ≤ 1) ∧
    (acquire (PoolConfig.mk 1 300 10)
      [{ session := 7, last_used := 0, in_use := true }] 0 (.error "refused") =
      (pruneExpired (PoolConfig.mk 1 300 10)
        [{ session := 7, last_used := 0, in_use := true }] 0,
       .error .poolFull)) ∧
    ((pruneExpired (PoolConfig.mk 1 300 10) [] 0).length <
      (acquire (PoolConfig.mk 1 300 10) [] 0 (.ok 9)).1.length →
      (pruneExpired (PoolConfig.mk 1 300 10) [] 0).length < 1) := by
  have h := acquire_respects_capacity (PoolConfig.mk 1 300 10)
    [{ session := 7, last_used := 0, in_use := true }] 0 (.error "refused")
    (by decide)
  have h₂ := acquire_respects_capacity (PoolConfig.mk 1 300 10) [] 0 (.ok 9)
    (by decide)
  exact ⟨h.1, h.2.2 (by decide) (by decide), h₂.2.1⟩

/-- C6: acquire prunes every idle-expired entry before any reuse decision:
after an acquire at instant `now`, every entry still in the pool (reused,
minted, or merely retained) is non-expired at `now`, and the reuse scan runs
on the pruned list only — so an idle-expired entry is never marked in-use and
returned to a caller. -/
theorem acquire_never_returns_expired (cfg : PoolConfig)
    (conns : List SSHConnection) (now : Nat) (connect : Except String Nat) :
    (∀ e ∈ (acquire cfg conns now connect).1,
      e.is_expired now cfg.idle_timeout = false) ∧
    (∀ marked, markFirstFree (pruneExpired cfg conns now) now = some marked →
      acquire cfg conns now connect = (marked, .ok ())) := by
  have hmem : ∀ e ∈ pruneExpired cfg conns now,
      e.is_expired now cfg.idle_timeout = false := by
    intro e he
    have := (List.mem_filter.mp he).2
    simpa using this
  have hfresh : ∀ s : Nat,
      SSHConnection.is_expired (SSHConnection.mk s now true) now
        cfg.idle_timeout = false := by
    intro s
    simp [SSHConnection.is_expired]
  refine ⟨?_, fun marked hm => by simp [acquire, hm]⟩
  intro e he
  rcases hm : markFirstFree (pruneExpired cfg conns now) now with _ | marked
  · by_cases hlt :
      (pruneExpired cfg conns now).length < cfg.max_connections_per_host
    · cases hcn : connect with
      | ok s =>
          rw [hcn] at he
          simp only [acquire, hm, if_pos hlt] at he
          rcases List.mem_append.mp he with h' | h'
          · exact hmem e h'
          · rcases List.mem_singleton.mp h' with rfl
            exact hfresh s
      | error msg =>
          rw [hcn] at he
          simp only [acquire, hm, if_pos hlt] at he
          exact hmem e he
    · simp only [acquire, hm, if_neg hlt] at he
      exact hmem e he
  · simp only [acquire, hm] at he
    rcases markFirstFree_mem _ _ _ hm e he with h' | h'
    · exact hmem e h'
    · simp [SSHConnection.is_expired, h']

/-- Witness for `acquire_never_returns_expired`: an entry idle since
instant 0 is pruned at instant 400 (idle timeout 300) and the minted
replacement is not expired; a free fresh entry is reused via the scan of
the pruned list. -/
theorem acquire_never_returns_expired_witness :
    SSHConnection.is_expired (SSHConnection.mk 9 400 true) 400
      PoolConfig.default.idle_timeout = false ∧
    acquire PoolConfig.default
      [{ session := 3, last_used := 50, in_use := false }] 100 (.ok 9) =
      ([{ session := 3, last_used := 100, in_use := true }], .ok ()) := by
  have h := acquire_never_returns_expired PoolConfig.default
    [{ session := 1, last_used := 0, in_use := false }] 400 (.ok 9)
  have h₂ := acquire_never_returns_expired PoolConfig.default
    [{ session := 3, last_used := 50, in_use := false }] 100 (.ok 9)
  exact ⟨h.1 (SSHConnection.mk 9 400 true) (by decide),
    h₂.2 [{ session := 3, last_used := 100, in_use := true }] (by decide)⟩

/-- C7: `exec_with_timeout(command, timeout)` returns the command's stdout on
zero exit status, reports a non-zero exit status as a distinct error, and the
entire operation (channel open, execution, stdout read, channel close,
exit-status read — all inside `exec`, whose wall time is `elapsed`) is
bounded by the timeout, failing with the timeout error when the bound is
exceeded. -/
theorem exec_with_timeout_spec (conns : List SSHConnection)
    (stdout : String) (code : Int) (msg : String) (elapsed timeout : Nat)
    (hin : (conns.find? (·.in_use)).isSome) :
    (elapsed ≤ timeout →
      exec_with_timeout (some conns) (.completed stdout 0) elapsed timeout =
        .ok stdout) ∧
    (elapsed ≤ timeout → code ≠ 0 →
      exec_with_timeout (some conns) (.completed stdout code) elapsed
        timeout = .error (.nonZeroExit code)) ∧
    (elapsed ≤ timeout →
      exec_with_timeout (some conns) (.transportError msg) elapsed timeout =
        .error (.remote msg)) ∧
    (elapsed > timeout → ∀ o,
      exec_with_timeout (some conns) o elapsed timeout =
        .error .commandTimeout) ∧
    (ExecError.nonZeroExit code ≠ ExecError.commandTimeout) := by
  rcases hfind : conns.find? (·.in_use) with _ | c
  · rw [hfind] at hin
    simp at hin
  refine ⟨fun h => ?_, fun h hcode => ?_, fun h => ?_, fun h o => ?_,
    by simp⟩
  · simp [exec_with_timeout, Nat.not_lt.mpr h, exec, hfind]
  · simp [exec_with_timeout, Nat.not_lt.mpr h, exec, hfind, hcode]
  · simp [exec_with_timeout, Nat.not_lt.mpr h, exec, hfind]
  · simp [exec_with_timeout, h]

/-- Witness for `exec_with_timeout_spec`: a single in-use connection, a 30 s
bound; a zero-exit run of 1 s returns the stdout, exit code 7 is the
distinct non-zero-exit error, a transport failure surfaces, and a 31 s run
times out. -/
theorem exec_with_timeout_spec_witness :
    exec_with_timeout
      (some [{ session := 1, last_used := 0, in_use := true }])
      (.completed "out" 0) 1 30 = .ok "out" ∧
    exec_with_timeout
      (some [{ session := 1, last_used := 0, in_use := true }])
      (.completed "out" 7) 1 30 = .error (.nonZeroExit 7) ∧
    exec_with_timeout
      (some [{ session := 1, last_used := 0, in_use := true }])
      (.transportError "reset") 1 30 = .error (.remote "reset") ∧
    exec_with_timeout
      (some [{ session := 1, last_used := 0, in_use := true }])
      (.completed "out" 0) 31 30 = .error .commandTimeout := by
  have h := exec_with_timeout_spec
    [{ session := 1, last_used := 0, in_use := true }] "out" 7 "reset" 1 30
    (by decide)
  have h₂ := exec_with_timeout_spec
    [{ session := 1, last_used := 0, in_use := true }] "out" 7 "reset" 31 30
    (by decide)
  exact ⟨h.1 (by decide), h.2.1 (by decide) (by decide),
    h.2.2.1 (by decide), h₂.2.2.2.1 (by decide) (.completed "out" 0)⟩

/-- C8: `PtyManager::close(id)` is idempotent and always returns ok: it
removes the entry from the registry and attempts to kill the child exactly
when the id was present, ignoring the kill's outcome (`killResult` is
arbitrary in every conjunct); after close, the id is absent from
`list_sessions()` and every subsequent write, read, or resize on that id
fails with the session-not-found error. -/
theorem close_idempotent_spec (reg : Registry) (id : SessionId)
    (k k' : Except String Unit) (data : List Nat)
    (io : Except String Unit) (dev : RawReadOutcome) (rows cols : Nat) :
    ((ptyClose reg id k).2.2 = .ok ()) ∧
    ((ptyClose reg id k).2.1 = (lookupSession reg id).isSome) ∧
    (ptyClose (ptyClose reg id k).1 id k' =
      ((ptyClose reg id k).1, false, .ok ())) ∧
    (id ∉ list_sessions (ptyClose reg id k).1) ∧
    (ptyWrite (ptyClose reg id k).1 id data io = .error .sessionNotFound) ∧
    ((ptyRead (ptyClose reg id k).1 id dev).1 = .error .sessionNotFound) ∧
    (ptyResize (ptyClose reg id k).1 id rows cols io =
      .error .sessionNotFound) := by
  rcases hl : lookupSession reg id with _ | s
  · have hreg : (ptyClose reg id k).1 = reg := by simp [ptyClose, hl]
    refine ⟨by simp [ptyClose, hl], by simp [ptyClose, hl], ?_, ?_, ?_, ?_, ?_⟩
    · rw [hreg]
      simp [ptyClose, hl]
    · rw [hreg]
      exact not_mem_list_sessions_of_lookup_none reg id hl
    · rw [hreg]
      simp [ptyWrite, hl]
    · rw [hreg]
      simp [ptyRead, hl]
    · rw [hreg]
      simp [ptyResize, hl]
  · have hreg : (ptyClose reg id k).1 = removeSession reg id := by
      simp [ptyClose, hl]
    have hl' : lookupSession (ptyClose reg id k).1 id = none := by
      rw [hreg]
      exact lookupSession_removeSession reg id
    refine ⟨by simp [ptyClose, hl], by simp [ptyClose, hl], ?_, ?_, ?_, ?_, ?_⟩
    · rw [hreg]
      simp [ptyClose, lookupSession_removeSession]
    · exact not_mem_list_sessions_of_lookup_none _ id hl'
    · simp [ptyWrite, hl']
    · simp [ptyRead, hl']
    · simp [ptyResize, hl']

/-- Witness for `close_idempotent_spec` on a one-session registry with a
failing kill, showing close succeeds, a second close is a no-op, and
write/read/resize after close all report session-not-found. -/
theorem close_idempotent_spec_witness :
    ((ptyClose [(3, PtySession.mk 1 2 3 4)] 3 (.error "kill failed")).2.2 =
      .ok ()) ∧
    (ptyClose (ptyClose [(3, PtySession.mk 1 2 3 4)] 3
        (.error "kill failed")).1 3 (.ok ()) =
      ((ptyClose [(3, PtySession.mk 1 2 3 4)] 3 (.error "kill failed")).1,
        false, .ok ())) ∧
    (3 ∉ list_sessions (ptyClose [(3, PtySession.mk 1 2 3 4)] 3
      (.error "kill failed")).1) ∧
    (ptyWrite (ptyClose [(3, PtySession.mk 1 2 3 4)] 3
        (.error "kill failed")).1 3 [104, 105] (.ok ()) =
      .error .sessionNotFound) ∧
    ((ptyRead (ptyClose [(3, PtySession.mk 1 2 3 4)] 3
        (.error "kill failed")).1 3 .wouldBlock).1 =
      .error .sessionNotFound) ∧
    (ptyResize (ptyClose [(3, PtySession.mk 1 2 3 4)] 3
        (.error "kill failed")).1 3 40 132 (.ok ()) =
      .error .sessionNotFound) := by
  have h := close_idempotent_spec [(3, PtySession.mk 1 2 3 4)] 3
    (.error "kill failed") (.ok ()) [104, 105] (.ok ()) .wouldBlock 40 132
  exact ⟨h.1, h.2.2.1, h.2.2.2.1, h.2.2.2.2.1, h.2.2.2.2.2.1, h.2.2.2.2.2.2⟩

/-- C9: `PtyManager::read(id)` is non-blocking: it returns the empty byte
sequence on a would-block condition or a zero-byte read, at most 4 KiB of
the available bytes otherwise, surfaces any other I/O error to the caller,
and leaves the registry — hence the session — untouched in every case. -/
theorem pty_read_spec (reg : Registry) (id : SessionId) (s : PtySession)
    (bytes : List Nat) (msg : String)
    (hmem : lookupSession reg id = some s) :
    (ptyRead reg id .wouldBlock = (.ok [], reg)) ∧
    (ptyRead reg id (.avail []) = (.ok [], reg)) ∧
    ((ptyRead reg id (.avail bytes)).1 = .ok (bytes.take 4096)) ∧
    ((bytes.take 4096).length ≤ 4096) ∧
    (ptyRead reg id (.ioError msg) = (.error (.ioError msg), reg)) ∧
    (∀ dev, (ptyRead reg id dev).2 = reg) := by
  refine ⟨by simp [ptyRead, hmem], by simp [ptyRead, hmem], ?_,
    List.length_take_le _ _, by simp [ptyRead, hmem], ?_⟩
  · by_cases hb : bytes = []
    · subst hb
      simp [ptyRead, hmem]
    · simp [ptyRead, hmem, hb]
  · intro dev
    rcases dev with bs | _ | m
    · simp only [ptyRead, hmem]
      split <;> rfl
    · simp [ptyRead, hmem]
    · simp [ptyRead, hmem]

/-- Witness for `pty_read_spec` on a one-session registry: would-block and
zero-byte reads give the empty sequence, a 3-byte device read comes through
truncated to at most 4096 bytes, and an I/O error is surfaced with the
registry unchanged. -/
theorem pty_read_spec_witness :
    (ptyRead [(0, PtySession.mk 1 2 3 4)] 0 .wouldBlock =
      (.ok [], [(0, PtySession.mk 1 2 3 4)])) ∧
    (ptyRead [(0, PtySession.mk 1 2 3 4)] 0 (.avail []) =
      (.ok [], [(0, PtySession.mk 1 2 3 4)])) ∧
    ((ptyRead [(0, PtySession.mk 1 2 3 4)] 0 (.avail [10, 20, 30])).1 =
      .ok ([10, 20, 30].take 4096)) ∧
    (ptyRead [(0, PtySession.mk 1 2 3 4)] 0 (.ioError "eio") =
      (.error (.ioError "eio"), [(0, PtySession.mk 1 2 3 4)])) := by
  have h := pty_read_spec [(0, PtySession.mk 1 2 3 4)] 0
    (PtySession.mk 1 2 3 4) [10, 20, 30] "eio" (by rfl)
  exact ⟨h.1, h.2.1, h.2.2.1, h.2.2.2.2.1⟩

end RebeShell
